import Mathlib

/-!
# Verification of the Bangalore Local Guide query-processing pipeline

Shallow embedding of `src/query_processor.py`: the `QueryValidator`,
`QueryAnalyzer` (regex-driven intent classification, time/location slot
extraction) and the `QueryProcessor` orchestrator, together with proofs of
the specified properties.

Text is modelled as `List Char` (one entry per Python character).  The
regular expressions used by the source all have the shape
`\b(alt1|...|altn)\b` where each alternative is a sequence of literal
runs optionally separated by `.*` gaps; they are embedded as data
(`Seg`/`Pat`) together with an executable matcher that follows Python
`re` semantics for this fragment: leftmost scanning, alternatives tried
in declaration order, greedy `.*` that does not cross a newline, and
non-overlapping `findall` counting.  Python floats are modelled as `ℚ`
(the pipeline only forms `min 0.9 (0.5 + n * 0.2)` from small naturals).
-/

namespace LocalGuide

/-! ## Character classes (ASCII fragment of Python `re`) -/

/-- Python `\w` on the ASCII range: letters, digits and underscore. -/
def isWordChar (c : Char) : Bool :=
  c.isAlpha || c.isDigit || c == '_'

/-- Python `\s` / `str.strip` whitespace on the ASCII range. -/
def isSpaceChar (c : Char) : Bool :=
  c == ' ' || c == '\t' || c == '\n' || c == '\x0d' || c == '\x0c' || c == '\x0b'

/-! ## Regex fragment used by the source patterns -/

/-- One segment of a regex alternative: a literal run, or a `.*` gap. -/
inductive Seg where
  | lit : List Char → Seg
  | dot : Seg
deriving DecidableEq

/-- A pattern of the shape `\b(alt1|...|altn)\b`, the only shape the
source tables use.  Alternatives are tried in declaration order. -/
structure Pat where
  alts : List (List Seg)
deriving DecidableEq

/-- `\b`: true iff exactly one side of position `i` is a word character. -/
def wordBoundary (s : List Char) (i : Nat) : Bool :=
  (decide (0 < i) && isWordChar (s.getD (i - 1) ' ')) !=
    (decide (i < s.length) && isWordChar (s.getD i ' '))

/-- No newline among positions `[j, k)` of `s` (`.` does not cross `\n`). -/
def noNewlineSeg (s : List Char) (j k : Nat) : Bool :=
  ((s.drop j).take (k - j)).all (fun c => c != '\n')

/-- Match the remaining segments of one alternative starting at position
`j`; returns the end position of the match.  The final `\b` of the
pattern is checked when the segment list is exhausted.  A `.*` gap is
greedy: end positions are tried from the largest down. -/
def matchSegsEnd (s : List Char) : List Seg → Nat → Option Nat
  | [], j => if wordBoundary s j then some j else none
  | Seg.lit w :: rest, j =>
      if List.isPrefixOf w (s.drop j) then matchSegsEnd s rest (j + w.length) else none
  | Seg.dot :: rest, j =>
      ((List.range (s.length + 1 - j)).map (fun d => s.length - d)).findSome?
        (fun k => if decide (j ≤ k) && noNewlineSeg s j k then matchSegsEnd s rest k else none)

/-- Try to match pattern `p` with the match starting exactly at `i`. -/
def matchPatAt (p : Pat) (s : List Char) (i : Nat) : Option Nat :=
  if wordBoundary s i then p.alts.findSome? (fun alt => matchSegsEnd s alt i) else none

/-- `re.search`: does the pattern match anywhere in `s`? -/
def searchPat (p : Pat) (s : List Char) : Bool :=
  (List.range (s.length + 1)).any (fun i => (matchPatAt p s i).isSome)

/-- Scanner for `len(re.findall(p, s))`: leftmost non-overlapping
matches, resuming at each match end (or one past a zero-width match). -/
def countMatchesAux (p : Pat) (s : List Char) : Nat → Nat → Nat
  | 0, _ => 0
  | fuel + 1, i =>
      if i ≤ s.length then
        match matchPatAt p s i with
        | some e => 1 + countMatchesAux p s fuel (max (i + 1) e)
        | none => countMatchesAux p s fuel (i + 1)
      else 0

/-- `len(re.findall(p, s))`. -/
def countMatches (p : Pat) (s : List Char) : Nat :=
  countMatchesAux p s (s.length + 1) 0

/-- A single-word (or multi-word literal) alternative. -/
def wa (t : String) : List Seg := [Seg.lit t.data]

/-- An alternative of the shape `a.*b`. -/
def ga (a b : String) : List Seg := [Seg.lit a.data, Seg.dot, Seg.lit b.data]

/-! ## Data model (`query_processor.py` dataclasses) -/

/-- `QueryType` enumeration. -/
inductive QueryType where
  | food
  | traffic
  | slang
  | itinerary
  | culture
  | general
  | invalid
deriving DecidableEq

/-- `AgentResponse` dataclass from `agent_manager.py`. -/
structure AgentResponse where
  content : List Char
  confidence : ℚ
  sources_used : List (List Char)
  slang_explained : List (List Char × List Char)
deriving DecidableEq

/-- `ProcessedQuery` dataclass. -/
structure ProcessedQuery where
  original_text : List Char
  cleaned_text : List Char
  query_type : QueryType
  keywords : List (List Char)
  time_context : Option (List Char)
  location_context : Option (List Char)
  confidence : ℚ
  is_valid : Bool
deriving DecidableEq

/-- `QueryProcessingResult` dataclass. -/
structure QueryProcessingResult where
  processed_query : ProcessedQuery
  agent_response : Option AgentResponse
  processing_time_ms : ℚ
  success : Bool
  error_message : Option (List Char)
deriving DecidableEq

/-! ## QueryValidator -/

/-- `QueryValidator.min_length`. -/
def min_length : Nat := 2

/-- `QueryValidator.max_length`. -/
def max_length : Nat := 500

/-- Python `str.strip()` (ASCII whitespace). -/
def pyStrip (l : List Char) : List Char :=
  ((l.dropWhile isSpaceChar).reverse.dropWhile isSpaceChar).reverse

/-- Worker for `re.sub(r'\s+', ' ', ·)`: replaces every maximal run of
whitespace with a single space.  The flag records whether the scanner is
inside a run whose single space has already been emitted. -/
def collapseAux : Bool → List Char → List Char
  | _, [] => []
  | inRun, c :: cs =>
      if isSpaceChar c then
        if inRun then collapseAux true cs else ' ' :: collapseAux true cs
      else c :: collapseAux false cs

/-- `re.sub(r'\s+', ' ', l)`. -/
def collapseSpaces (l : List Char) : List Char := collapseAux false l

/-- The characters removed by `re.sub(r'[<>{}]', '', ·)`. -/
def isAngleChar (c : Char) : Bool :=
  c == '<' || c == '>' || c == '{' || c == '}'

/-- `QueryValidator._clean_query`: collapse whitespace on the stripped
text, then delete the characters `<`, `>`, `{`, `}`. -/
def clean_query (query_text : List Char) : List Char :=
  (collapseSpaces (pyStrip query_text)).filter (fun c => !isAngleChar c)

/-- Is the literal `w` a contiguous substring of `s`? (`re.search` of a
literal pattern such as `javascript:`.) -/
def containsSubstr (w s : List Char) : Bool :=
  (List.range (s.length + 1)).any (fun i => List.isPrefixOf w (s.drop i))

/-- `re.search(r'<script.*?>.*?</script>', s)`: positions `i < j < k`
with `<script` at `i`, `>` at `j`, `</script>` at `k`, and no newline
inside either gap (`.` does not cross `\n`). -/
def scriptTagMatch (s : List Char) : Bool :=
  (List.range (s.length + 1)).any (fun i =>
    List.isPrefixOf ("<script".data) (s.drop i) &&
    (List.range (s.length + 1)).any (fun j =>
      decide (i + 7 ≤ j) && (s.getD j ' ' == '>') && noNewlineSeg s (i + 7) j &&
      (List.range (s.length + 1)).any (fun k =>
        decide (j + 1 ≤ k) && List.isPrefixOf ("</script>".data) (s.drop k) &&
          noNewlineSeg s (j + 1) k)))

/-- `QueryValidator.forbidden_patterns` search over the lowercased text. -/
def containsForbidden (query_lower : List Char) : Bool :=
  scriptTagMatch query_lower ||
  containsSubstr ("javascript:".data) query_lower ||
  containsSubstr ("data:".data) query_lower ||
  containsSubstr ("vbscript:".data) query_lower

/-- `QueryValidator.validate_query`: returns
`(is_valid, cleaned_text, error_message)`. -/
def validate_query (query_text : List Char) : Bool × List Char × List Char :=
  if query_text.isEmpty then
    (false, [], "Query cannot be empty".data)
  else if (pyStrip query_text).length < min_length then
    (false, [], "Query too short (minimum 2 characters)".data)
  else if max_length < query_text.length then
    (false, [], "Query too long (maximum 500 characters)".data)
  else if containsForbidden (query_text.map Char.toLower) then
    (false, [], "Query contains invalid content".data)
  else
    (true, clean_query query_text, [])

/-! ## QueryAnalyzer pattern tables (declaration order preserved) -/

/-- `QueryAnalyzer.query_patterns`: intent pattern tables, in the dict's
insertion (declaration) order. -/
def query_patterns : List (QueryType × List Pat) :=
  [ (QueryType.food,
      [ ⟨[wa "food", wa "eat", wa "breakfast", wa "lunch", wa "dinner", wa "restaurant",
          wa "cafe", wa "dosa", wa "idli", wa "meal", wa "hungry", wa "taste"]⟩,
        ⟨[ga "where" "eat", ga "what" "eat", ga "food" "recommend", ga "restaurant" "suggest"]⟩,
        ⟨[wa "malleshwaram", wa "basavanagudi", wa "vv puram", wa "street food"]⟩ ]),
    (QueryType.traffic,
      [ ⟨[wa "traffic", wa "road", wa "drive", wa "metro", wa "transport", wa "travel",
          wa "commute", wa "bus", wa "auto"]⟩,
        ⟨[wa "silk board", wa "electronic city", wa "outer ring", wa "whitefield", wa "hebbal"]⟩,
        ⟨[ga "how" "reach", ga "traffic" "bad", ga "metro" "better", ga "avoid" "traffic"]⟩ ]),
    (QueryType.slang,
      [ ⟨[wa "slang", wa "mean", wa "meaning", ga "what" "mean", wa "explain", wa "guru",
          wa "machcha", wa "sakkath", wa "scene illa"]⟩,
        ⟨[ga "what" "guru", ga "what" "machcha", ga "what" "sakkath", wa "scene illa maga"]⟩ ]),
    (QueryType.itinerary,
      [ ⟨[wa "itinerary", wa "plan", wa "day", wa "visit", wa "places", wa "tour",
          wa "trip", wa "schedule"]⟩,
        ⟨[wa "one day", wa "full day", ga "places" "visit", ga "what" "see", ga "plan" "day"]⟩ ]),
    (QueryType.culture,
      [ ⟨[wa "culture", wa "custom", wa "tradition", wa "etiquette", wa "behavior",
          wa "respect", wa "temple"]⟩,
        ⟨[ga "cultural" "norm", ga "how" "behave", ga "what" "expect", ga "local" "custom"]⟩ ]) ]

/-- The `'morning'` entry of `QueryAnalyzer.time_patterns`. -/
def morning_pattern : Pat :=
  ⟨[wa "morning", wa "breakfast", wa "6am", wa "7am", wa "8am", wa "9am", wa "early"]⟩

/-- The `'afternoon'` entry of `QueryAnalyzer.time_patterns`. -/
def afternoon_pattern : Pat :=
  ⟨[wa "afternoon", wa "lunch", wa "12pm", wa "1pm", wa "2pm", wa "3pm", wa "noon"]⟩

/-- The `'evening'` entry of `QueryAnalyzer.time_patterns`. -/
def evening_pattern : Pat :=
  ⟨[wa "evening", wa "dinner", wa "6pm", wa "7pm", wa "8pm", wa "9pm", wa "night"]⟩

/-- `QueryAnalyzer.time_patterns`, in dict insertion order. -/
def time_patterns : List (List Char × Pat) :=
  [ ("morning".data, morning_pattern),
    ("afternoon".data, afternoon_pattern),
    ("evening".data, evening_pattern) ]

/-- `QueryAnalyzer.location_patterns`, in dict insertion order. -/
def location_patterns : List (List Char × Pat) :=
  [ ("malleshwaram".data, ⟨[wa "malleshwaram"]⟩),
    ("basavanagudi".data, ⟨[wa "basavanagudi"]⟩),
    ("koramangala".data, ⟨[wa "koramangala"]⟩),
    ("indiranagar".data, ⟨[wa "indiranagar"]⟩),
    ("whitefield".data, ⟨[wa "whitefield"]⟩),
    ("electronic_city".data, ⟨[wa "electronic city"]⟩),
    ("silk_board".data, ⟨[wa "silk board"]⟩) ]

/-! ## QueryAnalyzer classification -/

/-- Total match count of one intent's pattern table on the text
(`score += len(re.findall(pattern, ...))` over the table). -/
def scoreFor (query_lower : List Char) (pats : List Pat) : Nat :=
  (pats.map (fun p => countMatches p query_lower)).sum

/-- All five intent scores, keyed in declaration order. -/
def allScores (query_lower : List Char) : List (QueryType × Nat) :=
  query_patterns.map (fun qp => (qp.1, scoreFor query_lower qp.2))

/-- The `type_scores` dict: only intents whose score is positive,
insertion order = declaration order. -/
def type_scores (query_lower : List Char) : List (QueryType × Nat) :=
  (allScores query_lower).filter (fun x => 0 < x.2)

/-- One step of Python `max(type_scores, key=type_scores.get)`: a later
entry replaces the current best only on a strictly larger value. -/
def maxStep (b y : QueryType × Nat) : QueryType × Nat :=
  if b.2 < y.2 then y else b

/-- Python `max(d, key=d.get)`: first key attaining the maximal value,
`none` on an empty dict. -/
def firstMax : List (QueryType × Nat) → Option (QueryType × Nat)
  | [] => none
  | x :: xs => some (xs.foldl maxStep x)

/-- `QueryAnalyzer._determine_query_type`. -/
def determine_query_type (query_lower : List Char) : QueryType × ℚ :=
  match firstMax (type_scores query_lower) with
  | none => (QueryType.general, 0.5)
  | some m => (m.1, min 0.9 (0.5 + (m.2 : ℚ) * 0.2))

/-! ## QueryAnalyzer keyword and slot extraction -/

/-- Worker for `re.findall(r'\b\w+\b', ·)`: maximal word-character runs,
the accumulator holding the current run reversed. -/
def wordsAux : List Char → List Char → List (List Char)
  | [], acc => if acc.isEmpty then [] else [acc.reverse]
  | c :: cs, acc =>
      if isWordChar c then wordsAux cs (c :: acc)
      else if acc.isEmpty then wordsAux cs [] else acc.reverse :: wordsAux cs []

/-- `re.findall(r'\b\w+\b', l)`. -/
def wordsOf (l : List Char) : List (List Char) := wordsAux l []

/-- The `stop_words` set literal. -/
def stop_words : List (List Char) :=
  ["the".data, "is".data, "at".data, "which".data, "on".data, "a".data, "an".data,
   "and".data, "or".data, "but".data, "in".data, "with".data, "to".data, "for".data,
   "of".data, "as".data, "by".data]

/-- `QueryAnalyzer._extract_keywords`. -/
def extract_keywords (query_lower : List Char) : List (List Char) :=
  ((wordsOf query_lower).filter
    (fun word => !stop_words.contains word && 2 < word.length)).take 10

/-- `QueryAnalyzer._extract_time_context`: first period (dict order)
whose pattern matches. -/
def extract_time_context (query_lower : List Char) : Option (List Char) :=
  (time_patterns.find? (fun tp => searchPat tp.2 query_lower)).map (fun tp => tp.1)

/-- `QueryAnalyzer._extract_location_context`. -/
def extract_location_context (query_lower : List Char) : Option (List Char) :=
  (location_patterns.find? (fun lp => searchPat lp.2 query_lower)).map (fun lp => lp.1)

/-- `QueryAnalyzer.analyze_query`. -/
def analyze_query (query_text : List Char) : ProcessedQuery :=
  let query_lower := query_text.map Char.toLower
  let tc := determine_query_type query_lower
  { original_text := query_text
    cleaned_text := query_text
    query_type := tc.1
    keywords := extract_keywords query_lower
    time_context := extract_time_context query_lower
    location_context := extract_location_context query_lower
    confidence := tc.2
    is_valid := decide (tc.1 ≠ QueryType.invalid) && decide ((0.3 : ℚ) < tc.2) }

/-! ## QueryProcessor orchestrator

The agent manager (initialization plus `process_user_query`) is the one
external collaborator; it is modelled as a function that either returns
an `AgentResponse` or fails with an exception message, and the wall
clock is modelled as an explicit `elapsed` parameter, since it is the
only non-deterministic input of `process_query`. -/

/-- The `ProcessedQuery` built by `process_query` on a failure path
(validator rejection or caught exception). -/
def invalidProcessedQuery (original cleaned : List Char) : ProcessedQuery :=
  { original_text := original
    cleaned_text := cleaned
    query_type := QueryType.invalid
    keywords := []
    time_context := none
    location_context := none
    confidence := 0
    is_valid := false }

/-- `QueryProcessor.process_query`. -/
def process_query (agent : List Char → Except (List Char) AgentResponse)
    (elapsed : ℚ) (query_text : List Char) : QueryProcessingResult :=
  let v := validate_query query_text
  if v.1 = false then
    { processed_query := invalidProcessedQuery query_text []
      agent_response := none
      processing_time_ms := elapsed
      success := false
      error_message := some v.2.2 }
  else
    let processed_query := analyze_query v.2.1
    if processed_query.is_valid = false then
      { processed_query := processed_query
        agent_response := none
        processing_time_ms := elapsed
        success := false
        error_message := some ("Query could not be understood".data) }
    else
      match agent v.2.1 with
      | Except.ok resp =>
          { processed_query := processed_query
            agent_response := some resp
            processing_time_ms := elapsed
            success := true
            error_message := none }
      | Except.error e =>
          { processed_query := invalidProcessedQuery query_text v.2.1
            agent_response := none
            processing_time_ms := elapsed
            success := false
            error_message := some ("Processing error: ".data ++ e) }

/-! ## Auxiliary agents used to instantiate the orchestrator -/

/-- An agent that always answers. -/
def agentOk : List Char → Except (List Char) AgentResponse :=
  fun _ => Except.ok ⟨"ok".data, 1, [], []⟩

/-- An agent whose call raises (models an internal fault downstream). -/
def agentFail : List Char → Except (List Char) AgentResponse :=
  fun _ => Except.error ("boom".data)

/-! ## Structural lemmas about the classifier's max selection -/

/-- Maximal score of a score list (`0` for the empty list). -/
def maxV : List (QueryType × Nat) → Nat
  | [] => 0
  | x :: xs => max x.2 (maxV xs)

theorem maxV_cons (x : QueryType × Nat) (xs : List (QueryType × Nat)) :
    maxV (x :: xs) = max x.2 (maxV xs) := rfl

theorem le_maxV_of_mem {x : QueryType × Nat} {l : List (QueryType × Nat)}
    (h : x ∈ l) : x.2 ≤ maxV l := by
  induction l with
  | nil => cases h
  | cons y ys ih =>
      rcases List.mem_cons.mp h with rfl | h2
      · simp [maxV_cons]
      · have := ih h2
        simp only [maxV_cons]
        omega

/-- Python's `max(d, key=d.get)` (modelled by `foldl maxStep`) returns the
first entry of the list attaining the maximal value. -/
theorem find?_max_eq_foldl (xs : List (QueryType × Nat)) :
    ∀ b, (b :: xs).find? (fun y => y.2 == maxV (b :: xs)) = some (xs.foldl maxStep b) := by
  induction xs with
  | nil =>
      intro b
      simp [List.find?, maxV]
  | cons y ys ih =>
      intro b
      by_cases hby : b.2 < y.2
      · have hfold : (y :: ys).foldl maxStep b = ys.foldl maxStep y := by
          simp [List.foldl, maxStep, hby]
        have hM : maxV (b :: y :: ys) = maxV (y :: ys) := by
          simp only [maxV_cons]
          omega
        have hy : y.2 ≤ maxV (y :: ys) := le_maxV_of_mem (List.mem_cons_self y ys)
        rw [hfold, List.find?_cons_of_neg _ (by simp only [beq_iff_eq, hM]; omega), hM]
        exact ih y
      · have hfold : (y :: ys).foldl maxStep b = ys.foldl maxStep b := by
          simp [List.foldl, maxStep, hby]
        have hM : maxV (b :: y :: ys) = maxV (b :: ys) := by
          simp only [maxV_cons]
          omega
        rw [hfold, hM, ← ih b]
        by_cases hb : b.2 = maxV (b :: ys)
        · rw [List.find?_cons_of_pos _ (by simp only [beq_iff_eq]; exact hb),
            List.find?_cons_of_pos _ (by simp only [beq_iff_eq]; exact hb)]
        · have hblt : b.2 < maxV (b :: ys) := by
            have : b.2 ≤ maxV (b :: ys) := le_maxV_of_mem (List.mem_cons_self b ys)
            omega
          have hbne : ¬(b.2 == maxV (b :: ys)) = true := by
            simp only [beq_iff_eq]
            exact hb
          have hyne : ¬(y.2 == maxV (b :: ys)) = true := by
            simp only [beq_iff_eq]
            omega
          rw [List.find?_cons_of_neg _ (by exact hbne), List.find?_cons_of_neg _ (by exact hyne),
            List.find?_cons_of_neg _ (by exact hbne)]

theorem firstMax_spec {l : List (QueryType × Nat)} {m : QueryType × Nat}
    (h : firstMax l = some m) :
    l.find? (fun y => y.2 == maxV l) = some m := by
  cases l with
  | nil => cases h
  | cons b xs =>
      rw [find?_max_eq_foldl]
      simpa [firstMax] using h

theorem firstMax_mem {l : List (QueryType × Nat)} {m : QueryType × Nat}
    (h : firstMax l = some m) : m ∈ l :=
  List.mem_of_find?_eq_some (firstMax_spec h)

theorem firstMax_val {l : List (QueryType × Nat)} {m : QueryType × Nat}
    (h : firstMax l = some m) : m.2 = maxV l := by
  have := List.find?_some (firstMax_spec h)
  simpa using this

/-- Dropping zero-score entries never changes the maximal score. -/
theorem maxV_filter_pos (l : List (QueryType × Nat)) :
    maxV (l.filter (fun x => 0 < x.2)) = maxV l := by
  induction l with
  | nil => rfl
  | cons x xs ih =>
      by_cases hx : 0 < x.2
      · rw [List.filter_cons_of_pos (by simpa using hx), maxV_cons, maxV_cons, ih]
      · rw [List.filter_cons_of_neg (by simpa using hx), maxV_cons, ih]
        omega

/-- Searching for a positive target value commutes with dropping the
zero-score entries. -/
theorem find?_filter_pos (l : List (QueryType × Nat)) (M : Nat) (hM : 0 < M) :
    (l.filter (fun x => 0 < x.2)).find? (fun y => y.2 == M) =
      l.find? (fun y => y.2 == M) := by
  induction l with
  | nil => rfl
  | cons x xs ih =>
      by_cases hx : 0 < x.2
      · rw [List.filter_cons_of_pos (by simpa using hx)]
        by_cases he : x.2 = M
        · rw [List.find?_cons_of_pos _ (by simpa using he),
            List.find?_cons_of_pos _ (by simpa using he)]
        · rw [List.find?_cons_of_neg _ (by simpa using he),
            List.find?_cons_of_neg _ (by simpa using he), ih]
      · have hne : ¬(x.2 == M) = true := by
          simp only [beq_iff_eq]
          omega
        rw [List.filter_cons_of_neg (by simpa using hx), List.find?_cons_of_neg _ (by exact hne),
          ih]

/-! ## Characterization of `determine_query_type` -/

theorem determine_cases (l : List Char) :
    (type_scores l = [] ∧ determine_query_type l = (QueryType.general, 0.5)) ∨
    (∃ m, firstMax (type_scores l) = some m ∧ m ∈ type_scores l ∧
      m.2 = maxV (type_scores l) ∧ 0 < m.2 ∧
      determine_query_type l = (m.1, min 0.9 (0.5 + (m.2 : ℚ) * 0.2))) := by
  cases hts : type_scores l with
  | nil =>
      left
      refine ⟨rfl, ?_⟩
      simp [determine_query_type, hts, firstMax]
  | cons a as =>
      right
      refine ⟨as.foldl maxStep a, rfl, firstMax_mem rfl, firstMax_val rfl, ?_, ?_⟩
      · have hmem : as.foldl maxStep a ∈ type_scores l := hts ▸ firstMax_mem rfl
        have h2 : as.foldl maxStep a ∈ allScores l ∧ 0 < (as.foldl maxStep a).2 := by
          simpa [type_scores] using hmem
        exact h2.2
      · simp [determine_query_type, hts, firstMax]

/-- The keys of the score table are the five classifiable intents. -/
theorem mem_allScores_key {l : List Char} {m : QueryType × Nat}
    (h : m ∈ allScores l) :
    m.1 = QueryType.food ∨ m.1 = QueryType.traffic ∨ m.1 = QueryType.slang ∨
      m.1 = QueryType.itinerary ∨ m.1 = QueryType.culture := by
  simp only [allScores, query_patterns, List.map_cons, List.map_nil, List.mem_cons,
    List.not_mem_nil, or_false] at h
  rcases h with rfl | rfl | rfl | rfl | rfl <;> simp

/-- The winning entry carries a value appearing in the score table. -/
theorem type_scores_sub {l : List Char} {m : QueryType × Nat}
    (h : m ∈ type_scores l) : m ∈ allScores l :=
  List.mem_of_mem_filter h

/-- Bounds satisfied by every classification outcome: the intent is never
`invalid` and the confidence lies in `[0.5, 0.9]`. -/
theorem determine_props (l : List Char) :
    (determine_query_type l).1 ≠ QueryType.invalid ∧
    (0.5 : ℚ) ≤ (determine_query_type l).2 ∧ (determine_query_type l).2 ≤ 0.9 := by
  rcases determine_cases l with ⟨-, hd⟩ | ⟨m, -, hmem, -, hpos, hd⟩
  · rw [hd]
    refine ⟨by simp, by norm_num, by norm_num⟩
  · rw [hd]
    have hn : (1 : ℚ) ≤ (m.2 : ℚ) := by exact_mod_cast hpos
    refine ⟨?_, ?_, ?_⟩
    · rcases mem_allScores_key (type_scores_sub hmem) with h | h | h | h | h <;>
        simp [h]
    · refine le_min (by norm_num) (by linarith)
    · exact min_le_left _ _

/-! ## Lemmas about `analyze_query` -/

theorem analyze_confidence (t : List Char) :
    (analyze_query t).confidence = (determine_query_type (t.map Char.toLower)).2 := rfl

theorem analyze_query_type (t : List Char) :
    (analyze_query t).query_type = (determine_query_type (t.map Char.toLower)).1 := rfl

/-- Every analyzed query is valid: the classifier never yields `invalid`
and always yields confidence above the `0.3` gate. -/
theorem analyze_is_valid (t : List Char) : (analyze_query t).is_valid = true := by
  have h := determine_props (t.map Char.toLower)
  show (decide ((determine_query_type (t.map Char.toLower)).1 ≠ QueryType.invalid) &&
    decide ((0.3 : ℚ) < (determine_query_type (t.map Char.toLower)).2)) = true
  rw [Bool.and_eq_true, decide_eq_true_iff, decide_eq_true_iff]
  exact ⟨h.1, by linarith [h.2.1]⟩

theorem type_scores_ne_nil {l : List Char} (h : ∃ p ∈ allScores l, 0 < p.2) :
    type_scores l ≠ [] := by
  simp only [type_scores, ne_eq, List.filter_eq_nil_iff]
  push_neg
  obtain ⟨p, hp, hpos⟩ := h
  exact ⟨p, hp, by simpa using hpos⟩

/-- C1: for every sanitized text in which at least one intent pattern
matches, classification selects the intent with the strictly highest
total match count over that intent's pattern table; on ties the first
maximum in the declaration order Food, Traffic, Slang, Itinerary,
Culture wins — i.e. the winner is exactly the first entry of the score
table attaining the maximal score. -/
theorem C1_highest_score_first_priority (l : List Char)
    (h : ∃ p ∈ allScores l, 0 < p.2) :
    (allScores l).find? (fun p => p.2 == maxV (allScores l)) =
      some ((determine_query_type l).1, maxV (allScores l)) := by
  rcases determine_cases l with ⟨he, -⟩ | ⟨m, hfm, hmem, hval, hpos, hdet⟩
  · exact absurd he (type_scores_ne_nil h)
  · have hMeq : maxV (type_scores l) = maxV (allScores l) := maxV_filter_pos (allScores l)
    have hMpos : 0 < maxV (allScores l) := by
      rw [← hMeq, ← hval]
      exact hpos
    have hspec := firstMax_spec hfm
    rw [hMeq] at hspec
    have hff : (type_scores l).find? (fun y => y.2 == maxV (allScores l)) =
        (allScores l).find? (fun y => y.2 == maxV (allScores l)) :=
      find?_filter_pos (allScores l) (maxV (allScores l)) hMpos
    rw [hff] at hspec
    rw [hspec, hdet]
    have hm2 : m.2 = maxV (allScores l) := by
      rw [← hMeq]
      exact hval
    cases m
    simp_all

/-- C1 witness: on `"dosa metro"` Food and Traffic tie with score 1 and
Food (first in declaration order) wins. -/
theorem C1_witness :
    (∃ p ∈ allScores ("dosa metro".data), 0 < p.2) ∧
    (allScores ("dosa metro".data)).find?
        (fun p => p.2 == maxV (allScores ("dosa metro".data))) =
      some ((determine_query_type ("dosa metro".data)).1, maxV (allScores ("dosa metro".data))) :=
  ⟨by decide, C1_highest_score_first_priority ("dosa metro".data) (by decide)⟩

/-- C2: with at least one pattern match the confidence equals
`min 0.9 (0.5 + 0.2 * winningScore)` where `winningScore` is the winning
intent's match count, and it is at least `0.5`; moreover for every input
to `process_query` the resulting confidence lies in `[0, 0.9]`. -/
theorem C2_confidence_formula :
    (∀ l : List Char, (∃ p ∈ allScores l, 0 < p.2) →
      ∃ n : Nat, ((determine_query_type l).1, n) ∈ allScores l ∧
        firstMax (type_scores l) = some ((determine_query_type l).1, n) ∧
        (determine_query_type l).2 = min 0.9 (0.5 + 0.2 * (n : ℚ)) ∧
        (0.5 : ℚ) ≤ (determine_query_type l).2) ∧
    (∀ agent elapsed (t : List Char),
      0 ≤ (process_query agent elapsed t).processed_query.confidence ∧
      (process_query agent elapsed t).processed_query.confidence ≤ 0.9) := by
  constructor
  · intro l h
    rcases determine_cases l with ⟨he, -⟩ | ⟨m, hfm, hmem, hval, hpos, hdet⟩
    · exact absurd he (type_scores_ne_nil h)
    · refine ⟨m.2, ?_, ?_, ?_, (determine_props l).2.1⟩
      · rw [hdet]
        exact type_scores_sub hmem
      · rw [hdet]
        exact hfm
      · rw [hdet]
        norm_num [mul_comm]
  · intro agent elapsed t
    have hb := determine_props (((validate_query t).2.1).map Char.toLower)
    unfold process_query
    by_cases hv : (validate_query t).1 = false
    · simp [hv, invalidProcessedQuery]
      norm_num
    · by_cases hiv : (analyze_query (validate_query t).2.1).is_valid = false
      · simp [hv, hiv, analyze_confidence]
        exact ⟨by linarith [hb.2.1], hb.2.2⟩
      · cases hag : agent (validate_query t).2.1 with
        | ok r =>
            simp [hv, hiv, hag, analyze_confidence]
            exact ⟨by linarith [hb.2.1], hb.2.2⟩
        | error e =>
            simp [hv, hiv, hag, invalidProcessedQuery]
            norm_num

/-- C2 witness: the formula at the single-match text `"dosa"` and the
bounds at the processed input `"hi"`. -/
theorem C2_witness :
    (∃ n : Nat, ((determine_query_type ("dosa".data)).1, n) ∈ allScores ("dosa".data) ∧
      firstMax (type_scores ("dosa".data)) = some ((determine_query_type ("dosa".data)).1, n) ∧
      (determine_query_type ("dosa".data)).2 = min 0.9 (0.5 + 0.2 * (n : ℚ)) ∧
      (0.5 : ℚ) ≤ (determine_query_type ("dosa".data)).2) ∧
    (0 ≤ (process_query agentOk 0 ("hi".data)).processed_query.confidence ∧
      (process_query agentOk 0 ("hi".data)).processed_query.confidence ≤ 0.9) :=
  ⟨C2_confidence_formula.1 ("dosa".data) (by decide),
    C2_confidence_formula.2 agentOk 0 ("hi".data)⟩

/-- C3: when no pattern of any intent's table matches, classification
returns the explicit fallback `(General, 0.5)` — never `Invalid`, never
a zero-confidence result. -/
theorem C3_general_fallback :
    (∀ l : List Char, (∀ p ∈ allScores l, p.2 = 0) →
      determine_query_type l = (QueryType.general, 0.5)) ∧
    (∀ t : List Char, (∀ p ∈ allScores (t.map Char.toLower), p.2 = 0) →
      (analyze_query t).query_type = QueryType.general ∧
      (analyze_query t).confidence = 0.5) := by
  have main : ∀ l : List Char, (∀ p ∈ allScores l, p.2 = 0) →
      determine_query_type l = (QueryType.general, 0.5) := by
    intro l h
    have hts : type_scores l = [] := by
      simp only [type_scores, List.filter_eq_nil_iff]
      intro a ha
      simp [h a ha]
    simp [determine_query_type, hts, firstMax]
  refine ⟨main, fun t h => ⟨?_, ?_⟩⟩
  · rw [analyze_query_type, main _ h]
  · rw [analyze_confidence, main _ h]

/-- C3 witness: `"zzz"` matches no intent pattern. -/
theorem C3_witness :
    determine_query_type ("zzz".data) = (QueryType.general, 0.5) ∧
    ((analyze_query ("zzz".data)).query_type = QueryType.general ∧
      (analyze_query ("zzz".data)).confidence = 0.5) :=
  ⟨C3_general_fallback.1 ("zzz".data) (by decide),
    C3_general_fallback.2 ("zzz".data) (by decide)⟩

/-- C4: inputs whose trimmed length is below 2 or whose raw length
exceeds 500 are rejected, and every validator rejection yields a result
with intent `invalid`, confidence 0, empty keywords, no slots, success
false, and the validator's rejection reason as error message. -/
theorem C4_validation_boundary :
    (∀ (t : List Char) agent elapsed,
      (pyStrip t).length < min_length ∨ max_length < t.length →
      (process_query agent elapsed t).success = false) ∧
    (∀ (t : List Char) agent elapsed, (validate_query t).1 = false →
      process_query agent elapsed t =
        { processed_query := invalidProcessedQuery t []
          agent_response := none
          processing_time_ms := elapsed
          success := false
          error_message := some (validate_query t).2.2 }) := by
  have hpart2 : ∀ (t : List Char) agent elapsed, (validate_query t).1 = false →
      process_query agent elapsed t =
        { processed_query := invalidProcessedQuery t []
          agent_response := none
          processing_time_ms := elapsed
          success := false
          error_message := some (validate_query t).2.2 } := by
    intro t agent elapsed hv
    unfold process_query
    simp [hv]
  refine ⟨?_, hpart2⟩
  intro t agent elapsed h
  have hv : (validate_query t).1 = false := by
    unfold validate_query
    split_ifs with h1 h2 h3 h4
    · rfl
    · rfl
    · rfl
    · rfl
    · exfalso
      rcases h with hh | hh
      · exact h2 hh
      · exact h3 hh
  rw [hpart2 t agent elapsed hv]

/-- C4 witness: the one-character input `"a"`. -/
theorem C4_witness :
    (process_query agentOk 0 ("a".data)).success = false ∧
    process_query agentOk 0 ("a".data) =
      { processed_query := invalidProcessedQuery ("a".data) []
        agent_response := none
        processing_time_ms := 0
        success := false
        error_message := some ((validate_query ("a".data)).2.2) } :=
  ⟨C4_validation_boundary.1 ("a".data) agentOk 0 (Or.inl (by decide)),
    C4_validation_boundary.2 ("a".data) agentOk 0 (by decide)⟩

/-- C8: the orchestrator is exception-opaque — every call returns a
`QueryProcessingResult`; a result is unsuccessful exactly when it
carries an error message, and any fault raised by the downstream agent
is converted into such a failure result. -/
theorem C8_never_raises : ∀ (t : List Char) agent elapsed,
    ((process_query agent elapsed t).success = false ↔
      ∃ m, (process_query agent elapsed t).error_message = some m) ∧
    (∀ m, agent (validate_query t).2.1 = Except.error m →
      (process_query agent elapsed t).success = false) := by
  intro t agent elapsed
  unfold process_query
  by_cases hv : (validate_query t).1 = false
  · simp [hv]
  · by_cases hiv : (analyze_query (validate_query t).2.1).is_valid = false
    · simp [hv, hiv]
    · cases hag : agent (validate_query t).2.1 with
      | ok r =>
          simp [hv, hiv, hag]
      | error e =>
          simp [hv, hiv, hag]

/-- C8 witness: a faulting agent on the accepted input `"hi"`. -/
theorem C8_witness : (process_query agentFail 0 ("hi".data)).success = false :=
  (C8_never_raises ("hi".data) agentFail 0).2 ("boom".data) rfl

/-- C9: processing is deterministic — the elapsed-time measurement is
the only input that may differ between two runs on the same text, and
it never influences the classified query, the success flag, the error
message or the agent response. -/
theorem C9_determinism : ∀ (t : List Char) agent (e1 e2 : ℚ),
    (process_query agent e1 t).processed_query = (process_query agent e2 t).processed_query ∧
    (process_query agent e1 t).success = (process_query agent e2 t).success ∧
    (process_query agent e1 t).error_message = (process_query agent e2 t).error_message ∧
    (process_query agent e1 t).agent_response = (process_query agent e2 t).agent_response := by
  intro t agent e1 e2
  unfold process_query
  by_cases hv : (validate_query t).1 = false
  · simp [hv]
  · by_cases hiv : (analyze_query (validate_query t).2.1).is_valid = false
    · simp [hv, hiv]
    · cases hag : agent (validate_query t).2.1 with
      | ok r => simp [hv, hiv, hag]
      | error e => simp [hv, hiv, hag]

/-- C10: every validator-accepted input is analyzed with confidence at
least 0.5 (at least 0.7 as soon as any pattern matches), never with
intent `invalid`, hence `is_valid` is always true and the orchestrator's
low-confidence failure branch (`"Query could not be understood"`) is
unreachable. -/
theorem C10_low_confidence_unreachable :
    (∀ t : List Char, (validate_query t).1 = true →
      (0.5 : ℚ) ≤ (analyze_query (validate_query t).2.1).confidence ∧
      (analyze_query (validate_query t).2.1).query_type ≠ QueryType.invalid ∧
      (analyze_query (validate_query t).2.1).is_valid = true) ∧
    (∀ l : List Char, type_scores l ≠ [] → (0.7 : ℚ) ≤ (determine_query_type l).2) ∧
    (∀ (t : List Char) agent elapsed,
      (process_query agent elapsed t).error_message ≠
        some ("Query could not be understood".data)) := by
  refine ⟨?_, ?_, ?_⟩
  · intro t _
    have h := determine_props (((validate_query t).2.1).map Char.toLower)
    exact ⟨by rw [analyze_confidence]; exact h.2.1,
      by rw [analyze_query_type]; exact h.1, analyze_is_valid _⟩
  · intro l hl
    rcases determine_cases l with ⟨he, -⟩ | ⟨m, -, -, -, hpos, hdet⟩
    · exact absurd he hl
    · rw [hdet]
      have hn : (1 : ℚ) ≤ (m.2 : ℚ) := by exact_mod_cast hpos
      exact le_min (by norm_num) (by linarith)
  · intro t agent elapsed
    unfold process_query
    by_cases hv : (validate_query t).1 = false
    · simp only [hv, if_true]
      have hmsg : (validate_query t).2.2 = "Query cannot be empty".data ∨
          (validate_query t).2.2 = "Query too short (minimum 2 characters)".data ∨
          (validate_query t).2.2 = "Query too long (maximum 500 characters)".data ∨
          (validate_query t).2.2 = "Query contains invalid content".data ∨
          (validate_query t).2.2 = [] := by
        unfold validate_query
        split_ifs <;> simp
      rcases hmsg with hm | hm | hm | hm | hm <;> simp [hm]
    · cases hag : agent (validate_query t).2.1 with
      | ok r => simp [hv, analyze_is_valid, hag]
      | error e =>
          simp [hv, analyze_is_valid, hag]

/-- C10 witness: the accepted input `"hi"`, the matching text `"dosa"`,
and one full pipeline run. -/
theorem C10_witness :
    ((0.5 : ℚ) ≤ (analyze_query (validate_query ("hi".data)).2.1).confidence ∧
      (analyze_query (validate_query ("hi".data)).2.1).query_type ≠ QueryType.invalid ∧
      (analyze_query (validate_query ("hi".data)).2.1).is_valid = true) ∧
    (0.7 : ℚ) ≤ (determine_query_type ("dosa".data)).2 ∧
    (process_query agentOk 0 ("hi".data)).error_message ≠
      some ("Query could not be understood".data) :=
  ⟨C10_low_confidence_unreachable.1 ("hi".data) (by decide),
    C10_low_confidence_unreachable.2.1 ("dosa".data) (by decide),
    C10_low_confidence_unreachable.2.2 ("hi".data) agentOk 0⟩

/-- On an accepted input whose analysis reaches a responding agent, the
orchestrator returns the success result built from the analyzed query. -/
theorem process_query_ok (t : List Char) (r : AgentResponse)
    (agent : List Char → Except (List Char) AgentResponse) (elapsed : ℚ)
    (hv : (validate_query t).1 = true)
    (hag : agent (validate_query t).2.1 = Except.ok r) :
    process_query agent elapsed t =
      { processed_query := analyze_query (validate_query t).2.1
        agent_response := some r
        processing_time_ms := elapsed
        success := true
        error_message := none } := by
  unfold process_query
  simp [hv, analyze_is_valid, hag]

/-- C5 counterexample: on `"Traffic at Silk Board at 6 PM"` the pipeline
extracts no time slot at all — the evening table holds only the
spaceless token `6pm`, which does not match `6 pm` — contradicting the
claimed `timeSlot = Evening`. -/
theorem C5_counterexample :
    (process_query agentOk 0
        ("Traffic at Silk Board at 6 PM".data)).processed_query.time_context = none := by
  rw [process_query_ok ("Traffic at Silk Board at 6 PM".data) ⟨"ok".data, 1, [], []⟩
    agentOk 0 (by decide) rfl]
  decide

/-- C5 amended: `"Traffic at Silk Board at 6 PM"` is processed
successfully with intent Traffic and location slot `silk_board`, but
with no time slot. -/
theorem C5_traffic_silk_board :
    (process_query agentOk 0 ("Traffic at Silk Board at 6 PM".data)).success = true ∧
    (process_query agentOk 0
        ("Traffic at Silk Board at 6 PM".data)).processed_query.query_type =
      QueryType.traffic ∧
    (process_query agentOk 0
        ("Traffic at Silk Board at 6 PM".data)).processed_query.location_context =
      some ("silk_board".data) ∧
    (process_query agentOk 0
        ("Traffic at Silk Board at 6 PM".data)).processed_query.time_context = none := by
  rw [process_query_ok ("Traffic at Silk Board at 6 PM".data) ⟨"ok".data, 1, [], []⟩
    agentOk 0 (by decide) rfl]
  refine ⟨rfl, ?_, ?_, ?_⟩ <;> decide

/-! ## Lemmas for the time-slot table (C6) -/

/-- The explicit `<number>pm` tokens present in the evening table: only
`6pm`–`9pm` exist, written without a space. -/
def pmEveningTokens : Pat := ⟨[wa "6pm", wa "7pm", wa "8pm", wa "9pm"]⟩

theorem exists_of_findSome?_isSome {α β : Type _} {f : α → Option β} {l : List α}
    (h : (l.findSome? f).isSome = true) : ∃ x ∈ l, (f x).isSome = true := by
  induction l with
  | nil => simp [List.findSome?] at h
  | cons a as ih =>
      cases hfa : f a with
      | some b => exact ⟨a, by simp, by simp [hfa]⟩
      | none =>
          have h2 : (as.findSome? f).isSome = true := by
            simpa [List.findSome?_cons, hfa] using h
          obtain ⟨x, hx, hfx⟩ := ih h2
          exact ⟨x, by simp [hx], hfx⟩

theorem findSome?_isSome_of_mem {α β : Type _} {f : α → Option β} {l : List α} {x : α}
    (hx : x ∈ l) (h : (f x).isSome = true) : (l.findSome? f).isSome = true := by
  induction l with
  | nil => cases hx
  | cons a as ih =>
      rcases List.mem_cons.mp hx with rfl | hmem
      · cases hfa : f x with
        | some b => simp [List.findSome?_cons, hfa]
        | none =>
            rw [hfa] at h
            cases h
      · cases hfa : f a with
        | some b => simp [List.findSome?_cons, hfa]
        | none =>
            simp only [List.findSome?_cons, hfa]
            exact ih hmem

/-- A match of one of the pm tokens is in particular a match of the full
evening pattern (its alternatives contain the pm tokens). -/
theorem searchPat_evening_of_pm {l : List Char}
    (h : searchPat pmEveningTokens l = true) : searchPat evening_pattern l = true := by
  unfold searchPat at h ⊢
  rw [List.any_eq_true] at h ⊢
  obtain ⟨i, hi, hmi⟩ := h
  refine ⟨i, hi, ?_⟩
  unfold matchPatAt at hmi ⊢
  by_cases hw : wordBoundary l i = true
  · rw [if_pos hw] at hmi ⊢
    obtain ⟨alt, halt, hsome⟩ := exists_of_findSome?_isSome hmi
    refine findSome?_isSome_of_mem ?_ hsome
    simp only [pmEveningTokens, List.mem_cons, List.not_mem_nil, or_false] at halt
    rcases halt with rfl | rfl | rfl | rfl <;> simp [evening_pattern]
  · rw [if_neg hw] at hmi
    cases hmi

/-- C6 amended: the evening table's explicit pm tokens are exactly
`6pm`–`9pm` (spaceless); any text matching one of them and no morning or
afternoon pattern gets the Evening slot, and a text matching no time
pattern gets no time slot. -/
theorem C6_pm_evening (l : List Char) :
    (searchPat pmEveningTokens l = true → searchPat morning_pattern l = false →
      searchPat afternoon_pattern l = false →
      extract_time_context l = some ("evening".data)) ∧
    ((∀ tp ∈ time_patterns, searchPat tp.2 l = false) →
      extract_time_context l = none) := by
  constructor
  · intro hpm hm ha
    have hev := searchPat_evening_of_pm hpm
    simp [extract_time_context, time_patterns, List.find?, hm, ha, hev]
  · intro h
    have h1 : searchPat morning_pattern l = false :=
      h ("morning".data, morning_pattern) (by simp [time_patterns])
    have h2 : searchPat afternoon_pattern l = false :=
      h ("afternoon".data, afternoon_pattern) (by simp [time_patterns])
    have h3 : searchPat evening_pattern l = false :=
      h ("evening".data, evening_pattern) (by simp [time_patterns])
    simp [extract_time_context, time_patterns, List.find?, h1, h2, h3]

/-- C6 counterexample: `"12pm"` is an explicit `<number>pm` expression
with the number in 5..12, yet time extraction returns Afternoon, not the
claimed Evening. -/
theorem C6_counterexample :
    extract_time_context ("12pm".data) = some ("afternoon".data) := by
  decide

/-- C6 witness: `"6pm"` gets the Evening slot; `"xyz"` gets none. -/
theorem C6_witness :
    extract_time_context ("6pm".data) = some ("evening".data) ∧
    extract_time_context ("xyz".data) = none :=
  ⟨(C6_pm_evening ("6pm".data)).1 (by decide) (by decide) (by decide),
    (C6_pm_evening ("xyz".data)).2 (by decide)⟩

/-! ## Whitespace lemmas for the sanitizer (C7) -/

/-- No leading whitespace. -/
def noLeadWs (u : List Char) : Prop := u.dropWhile isSpaceChar = u

/-- No trailing whitespace. -/
def noTrailWs (u : List Char) : Prop :=
  ∀ c, u.getLast? = some c → isSpaceChar c = false

theorem dropWhile_head_false {p : Char → Bool} :
    ∀ {l t : List Char} {c : Char}, l.dropWhile p = c :: t → p c = false := by
  intro l
  induction l with
  | nil => intro t c h; cases h
  | cons a as ih =>
      intro t c h
      rw [List.dropWhile_cons] at h
      by_cases ha : p a = true
      · rw [if_pos ha] at h
        exact ih h
      · rw [if_neg ha] at h
        cases h
        simpa using ha

theorem getLast?_spec : ∀ (x : List Char), x ≠ [] → ∃ c, x.getLast? = some c ∧ c ∈ x := by
  intro x
  induction x with
  | nil => intro h; cases h rfl
  | cons a as ih =>
      intro _
      cases has : as with
      | nil => exact ⟨a, rfl, by simp⟩
      | cons b bs =>
          obtain ⟨c, h1, h2⟩ := ih (by simp [has])
          rw [has] at h1 h2
          exact ⟨c, by rw [List.getLast?_cons_cons]; exact h1, by simp [h2]⟩

theorem getLast?_cons_ne_nil {a : Char} {x : List Char} (h : x ≠ []) :
    (a :: x).getLast? = x.getLast? := by
  cases x with
  | nil => cases h rfl
  | cons b bs => exact List.getLast?_cons_cons

/-- Every character emitted by the whitespace collapser is a space or a
character of the input. -/
theorem mem_collapseAux : ∀ (l : List Char) (b : Bool) (c : Char),
    c ∈ collapseAux b l → c = ' ' ∨ c ∈ l := by
  intro l
  induction l with
  | nil =>
      intro b c h
      simp [collapseAux] at h
  | cons d ds ih =>
      intro b c h
      by_cases hws : isSpaceChar d = true
      · rw [show collapseAux b (d :: ds) =
            (if b then collapseAux true ds else ' ' :: collapseAux true ds) by
          simp [collapseAux, hws]] at h
        cases b with
        | true =>
            rw [if_pos rfl] at h
            rcases ih true c h with h1 | h1
            · exact Or.inl h1
            · exact Or.inr (List.mem_cons_of_mem d h1)
        | false =>
            rw [if_neg (by simp)] at h
            rcases List.mem_cons.mp h with rfl | h1
            · exact Or.inl rfl
            · rcases ih true c h1 with h2 | h2
              · exact Or.inl h2
              · exact Or.inr (List.mem_cons_of_mem d h2)
      · rw [show collapseAux b (d :: ds) = d :: collapseAux false ds by
          simp [collapseAux, hws]] at h
        rcases List.mem_cons.mp h with rfl | h1
        · exact Or.inr (List.mem_cons_self c ds)
        · rcases ih false c h1 with h2 | h2
          · exact Or.inl h2
          · exact Or.inr (List.mem_cons_of_mem d h2)

theorem collapseAux_false_ne_nil : ∀ (l : List Char), l ≠ [] → collapseAux false l ≠ [] := by
  intro l h
  cases l with
  | nil => cases h rfl
  | cons d ds =>
      by_cases hws : isSpaceChar d = true <;> simp [collapseAux, hws]

theorem collapseAux_ne_nil_of_exists :
    ∀ (l : List Char) (b : Bool), (∃ c ∈ l, isSpaceChar c = false) →
      collapseAux b l ≠ [] := by
  intro l
  induction l with
  | nil =>
      intro b h
      obtain ⟨c, hc, -⟩ := h
      cases hc
  | cons d ds ih =>
      intro b h
      by_cases hws : isSpaceChar d = true
      · have hds : ∃ c ∈ ds, isSpaceChar c = false := by
          obtain ⟨c, hc, hcf⟩ := h
          rcases List.mem_cons.mp hc with rfl | h1
          · rw [hws] at hcf
            cases hcf
          · exact ⟨c, h1, hcf⟩
        cases b with
        | true =>
            rw [show collapseAux true (d :: ds) = collapseAux true ds by
              simp [collapseAux, hws]]
            exact ih true hds
        | false =>
            simp [collapseAux, hws]
      · simp [collapseAux, hws]

/-- The collapser preserves the absence of trailing whitespace. -/
theorem noTrailWs_collapseAux : ∀ (l : List Char) (b : Bool),
    noTrailWs l → noTrailWs (collapseAux b l) := by
  intro l
  induction l with
  | nil =>
      intro b _ c hc
      cases hc
  | cons d ds ih =>
      intro b h
      by_cases hws : isSpaceChar d = true
      · by_cases hds : ds = []
        · exfalso
          subst hds
          have := h d rfl
          rw [hws] at this
          cases this
        · have hPds : noTrailWs ds := by
            intro c hc
            apply h
            rw [getLast?_cons_ne_nil hds]
            exact hc
          have hex : ∃ c ∈ ds, isSpaceChar c = false := by
            obtain ⟨c, h1, h2⟩ := getLast?_spec ds hds
            exact ⟨c, h2, hPds c h1⟩
          have hne : collapseAux true ds ≠ [] := collapseAux_ne_nil_of_exists ds true hex
          cases b with
          | true =>
              rw [show collapseAux true (d :: ds) = collapseAux true ds by
                simp [collapseAux, hws]]
              exact ih true hPds
          | false =>
              rw [show collapseAux false (d :: ds) = ' ' :: collapseAux true ds by
                simp [collapseAux, hws]]
              intro c hc
              rw [getLast?_cons_ne_nil hne] at hc
              exact ih true hPds c hc
      · by_cases hds : ds = []
        · subst hds
          intro c hc
          rw [show collapseAux b (d :: ([] : List Char)) = [d] by
            simp [collapseAux, hws]] at hc
          cases hc
          simpa using hws
        · have hPds : noTrailWs ds := by
            intro c hc
            apply h
            rw [getLast?_cons_ne_nil hds]
            exact hc
          have hne : collapseAux false ds ≠ [] := collapseAux_false_ne_nil ds hds
          rw [show collapseAux b (d :: ds) = d :: collapseAux false ds by
            simp [collapseAux, hws]]
          intro c hc
          rw [getLast?_cons_ne_nil hne] at hc
          exact ih false hPds c hc

/-- The collapser preserves the absence of leading whitespace. -/
theorem noLeadWs_collapseAux (l : List Char) (h : noLeadWs l) :
    noLeadWs (collapseAux false l) := by
  cases l with
  | nil => rfl
  | cons d ds =>
      have hd : isSpaceChar d = false := by
        by_contra hcon
        have hd1 : isSpaceChar d = true := by
          cases hdd : isSpaceChar d
          · exact absurd hdd hcon
          · rfl
        have hlen := (List.dropWhile_suffix (l := ds) isSpaceChar).length_le
        rw [noLeadWs, List.dropWhile_cons, if_pos hd1] at h
        have := congrArg List.length h
        simp at this
        omega
      rw [show collapseAux false (d :: ds) = d :: collapseAux false ds by
        simp [collapseAux, hd]]
      show List.dropWhile isSpaceChar (d :: collapseAux false ds) = _
      rw [List.dropWhile_cons, if_neg (by simp [hd])]

/-- The collapser is idempotent, in both run states. -/
theorem collapseAux_idem : ∀ l : List Char,
    collapseAux false (collapseAux false l) = collapseAux false l ∧
    collapseAux true (collapseAux true l) = collapseAux true l := by
  intro l
  induction l with
  | nil => exact ⟨rfl, rfl⟩
  | cons d ds ih =>
      by_cases hws : isSpaceChar d = true
      · constructor
        · rw [show collapseAux false (d :: ds) = ' ' :: collapseAux true ds by
            simp [collapseAux, hws]]
          rw [show collapseAux false (' ' :: collapseAux true ds) =
              ' ' :: collapseAux true (collapseAux true ds) by simp [collapseAux, isSpaceChar]]
          rw [ih.2]
        · rw [show collapseAux true (d :: ds) = collapseAux true ds by
            simp [collapseAux, hws]]
          exact ih.2
      · constructor
        · rw [show collapseAux false (d :: ds) = d :: collapseAux false ds by
            simp [collapseAux, hws]]
          rw [show collapseAux false (d :: collapseAux false ds) =
              d :: collapseAux false (collapseAux false ds) by simp [collapseAux, hws]]
          rw [ih.1]
        · rw [show collapseAux true (d :: ds) = d :: collapseAux false ds by
            simp [collapseAux, hws]]
          rw [show collapseAux true (d :: collapseAux false ds) =
              d :: collapseAux false (collapseAux false ds) by simp [collapseAux, hws]]
          rw [ih.1]

theorem noLeadWs_pyStrip (l : List Char) : noLeadWs (pyStrip l) := by
  cases hv : pyStrip l with
  | nil => rfl
  | cons c t =>
      have hpre : pyStrip l <+: l.dropWhile isSpaceChar := by
        unfold pyStrip
        have hsuf := List.dropWhile_suffix
          (l := (l.dropWhile isSpaceChar).reverse) isSpaceChar
        have := List.reverse_prefix.mpr hsuf
        rwa [List.reverse_reverse] at this
      rw [hv] at hpre
      obtain ⟨t2, ht2⟩ := hpre
      have hdw : l.dropWhile isSpaceChar = c :: (t ++ t2) := by
        rw [← ht2]
        simp
      have hc := dropWhile_head_false hdw
      show List.dropWhile isSpaceChar (c :: t) = c :: t
      rw [List.dropWhile_cons, if_neg (by simp [hc])]

theorem noTrailWs_pyStrip (l : List Char) : noTrailWs (pyStrip l) := by
  intro c hc
  unfold pyStrip at hc
  rw [List.getLast?_reverse] at hc
  cases hdw : List.dropWhile isSpaceChar ((l.dropWhile isSpaceChar).reverse) with
  | nil =>
      rw [hdw] at hc
      cases hc
  | cons a t =>
      rw [hdw] at hc
      have : a = c := by
        simpa using hc
      subst this
      exact dropWhile_head_false hdw

theorem pyStrip_eq_self {u : List Char} (h1 : noLeadWs u) (h2 : noTrailWs u) :
    pyStrip u = u := by
  unfold pyStrip
  rw [show List.dropWhile isSpaceChar u = u from h1]
  have hrev : u.reverse.dropWhile isSpaceChar = u.reverse := by
    cases hr : u.reverse with
    | nil => rfl
    | cons a t =>
        have ha : isSpaceChar a = false := by
          apply h2
          rw [← List.head?_reverse, hr]
          rfl
        rw [List.dropWhile_cons, if_neg (by simp [ha])]
  rw [hrev, List.reverse_reverse]

theorem mem_pyStrip {l : List Char} {c : Char} (hc : c ∈ pyStrip l) : c ∈ l := by
  unfold pyStrip at hc
  rw [List.mem_reverse] at hc
  have hc2 := List.IsSuffix.mem hc (List.dropWhile_suffix isSpaceChar)
  rw [List.mem_reverse] at hc2
  exact List.IsSuffix.mem hc2 (List.dropWhile_suffix isSpaceChar)

/-- C7 counterexample: sanitization is not idempotent — on `"a < b"`
stripping the `<` leaves the double space `"a  b"`, which a second pass
collapses to `"a b"`. -/
theorem C7_counterexample :
    clean_query (clean_query ("a < b".data)) ≠ clean_query ("a < b".data) := by
  decide

/-- C7 amended: sanitization is idempotent on every input containing
none of the stripped characters `<`, `>`, `{`, `}` (removing those
characters after whitespace collapsing is what breaks idempotence in
general): `clean_query (clean_query t) = clean_query t` for such `t`. -/
theorem C7_sanitize_idempotent_no_angles (l : List Char)
    (h : ∀ c ∈ l, isAngleChar c = false) :
    clean_query (clean_query l) = clean_query l := by
  have hfilter : ∀ (v : List Char), (∀ c ∈ v, isAngleChar c = false) →
      v.filter (fun c => !isAngleChar c) = v := by
    intro v hv
    exact List.filter_eq_self.mpr (fun a ha => by simp [hv a ha])
  have humem : ∀ c ∈ collapseAux false (pyStrip l), isAngleChar c = false := by
    intro c hc
    rcases mem_collapseAux (pyStrip l) false c hc with rfl | hcm
    · rfl
    · exact h c (mem_pyStrip hcm)
  have h1 : clean_query l = collapseAux false (pyStrip l) := by
    rw [clean_query]
    exact hfilter _ humem
  have h2 : pyStrip (collapseAux false (pyStrip l)) = collapseAux false (pyStrip l) :=
    pyStrip_eq_self (noLeadWs_collapseAux (pyStrip l) (noLeadWs_pyStrip l))
      (noTrailWs_collapseAux (pyStrip l) false (noTrailWs_pyStrip l))
  have h4 : clean_query (collapseAux false (pyStrip l)) = collapseAux false (pyStrip l) := by
    rw [clean_query]
    show (collapseAux false (pyStrip (collapseAux false (pyStrip l)))).filter _ = _
    rw [h2, (collapseAux_idem (pyStrip l)).1]
    exact hfilter _ humem
  rw [h1, h4]

/-- C7 witness: `"hello  world"` contains no stripped character. -/
theorem C7_witness :
    (∀ c ∈ ("hello  world".data), isAngleChar c = false) ∧
    clean_query (clean_query ("hello  world".data)) = clean_query ("hello  world".data) :=
  ⟨by decide, C7_sanitize_idempotent_no_angles ("hello  world".data) (by decide)⟩

end LocalGuide
